import Mathlib

/-!
# USBH_MIDI transport adapter (`usbh_midi.h`)

A shallow embedding of the class `usbHostMidiTransport` and of the inline
members of `USBH_MIDI` declared in `usbh_midi.h`, followed by theorems about
them.

* A `byte` / `uint8_t` is a `Fin 256`.
* The arrays `mTxBuffer` and `mRxBuffer` have `MIDI_MAX_SYSEX_SIZE` elements;
  an array is a function from the valid indices `Fin 256` to bytes.
* `size_t` counters are natural numbers; `++` and `--` wrap modulo
  `2 ^ sizeBits`, where `sizeBits` is the width of `size_t` on the target.
* The member functions of the base class `USBH_MIDI` that are only declared in
  the header (`RecvData`, `RecvRawData`, `SendData`) are parameters: records
  of functions over an arbitrary driver state `δ`.
* An access `mRxBuffer[i]` with `256 ≤ i` is outside the array; `read` then
  yields `none`.
-/

namespace USBHMIDI

/-! ## Constants and basic types -/

/-- Source: `#define MIDI_EVENT_PACKET_SIZE 64`. -/
def MIDI_EVENT_PACKET_SIZE : Nat := 64

/-- Source: `#define MIDI_MAX_SYSEX_SIZE 256`. -/
abbrev MIDI_MAX_SYSEX_SIZE : Nat := 256

/-- A `byte` (`uint8_t`). -/
abbrev Byte := Fin 256

/-- An array `byte x[MIDI_MAX_SYSEX_SIZE]`. -/
abbrev Buffer := Fin MIDI_MAX_SYSEX_SIZE → Byte

/-- The enumeration `MidiType` of the MIDI library, stored in one byte. -/
abbrev MidiType := Byte

/-- The enumerator `SystemExclusive` of `MidiType` in the MIDI library (`0xF0`). -/
def SystemExclusive : MidiType := 0xF0

/-- The target platform: the width of `size_t`, which C guarantees to be at
least 16 bits (16 on AVR, 32 on the ARM and ESP boards). Where the header
converts a `size_t` to `unsigned` (`available`), both have this width on
these targets and the conversion keeps the value. -/
structure Platform where
  sizeBits : Nat
  sizeBits_ge : 16 ≤ sizeBits

/-- The number of values of a `size_t`, `SIZE_MAX + 1`. -/
def Platform.sizeMod (P : Platform) : Nat := 2 ^ P.sizeBits

/-- An 8-bit AVR board: `size_t` has 16 bits. -/
def avr : Platform := ⟨16, by decide⟩

/-- A 32-bit ARM board: `size_t` has 32 bits. -/
def arm32 : Platform := ⟨32, by decide⟩

/-- Post-increment `x++` of a `size_t`: the new value of `x`. -/
def Platform.inc (P : Platform) (x : Nat) : Nat := (x + 1) % P.sizeMod

/-- Post-decrement `x--` of a `size_t`: the new value of `x`. -/
def Platform.dec (P : Platform) (x : Nat) : Nat := (x + P.sizeMod - 1) % P.sizeMod

/-! ## The base class `USBH_MIDI` -/

/-- The member functions of `USBH_MIDI` that `usbHostMidiTransport` calls. The
header only declares them; their bodies are not in `usbh_midi.h`, so they
are parameters. `δ` is the state of the driver object (its protected members
and the USB host behind it). Each function receives the driver state and the
array its pointer argument points to, and returns its `uint8_t` result and
the new driver state; `RecvRawData` also returns the array as it has written
it, `SendData` only reads `dataptr`. -/
structure USBH_MIDI (δ : Type) where
  /-- Source: `uint8_t RecvRawData(uint8_t *outBuf)`, called on `mRxBuffer`. -/
  RecvRawData : δ → Buffer → Byte × Buffer × δ
  /-- Source: `uint8_t SendData(uint8_t *dataptr, uint8_t nCable=0)`, called on `mTxBuffer`. -/
  SendData : δ → Buffer → Byte → Byte × δ

/-- The two overloads of `USBH_MIDI::RecvData`, declared in the header without
a body, as parameters. `μ` is the memory a caller's `uint8_t *` points to;
`*bytes_rcvd` is a `uint16_t`. Each returns its `uint8_t` result, the memory
behind its pointer arguments as it leaves it, and the new driver state. -/
structure RecvDataFns (δ μ : Type) where
  /-- Source: `uint8_t RecvData(uint16_t *bytes_rcvd, uint8_t *dataptr)`. -/
  RecvData2 : δ → Nat → μ → Byte × Nat × μ × δ
  /-- Source: `uint8_t RecvData(uint8_t *outBuf, bool isRaw=false)`. -/
  RecvData : δ → μ → Bool → Byte × μ × δ

/-- The backward compatibility function
`inline uint8_t RcvData(uint16_t *bytes_rcvd, uint8_t *dataptr)
{ return RecvData(bytes_rcvd, dataptr); }`. -/
def RecvDataFns.RcvData2 {δ μ : Type} (R : RecvDataFns δ μ) (d : δ) (bytes_rcvd : Nat)
    (dataptr : μ) : Byte × Nat × μ × δ :=
  R.RecvData2 d bytes_rcvd dataptr

/-- The backward compatibility function
`inline uint8_t RcvData(uint8_t *outBuf) { return RecvData(outBuf); }`; the
call omits `isRaw`, which takes its default `false`. -/
def RecvDataFns.RcvData {δ μ : Type} (R : RecvDataFns δ μ) (d : δ) (outBuf : μ) : Byte × μ × δ :=
  R.RecvData d outBuf false

/-! ## The class `usbHostMidiTransport` -/

/-- The data members of `usbHostMidiTransport`. -/
structure usbHostMidiTransport where
  mTxBuffer : Buffer
  mTxIndex : Nat
  mTxStatus : MidiType
  mRxBuffer : Buffer
  mRxLength : Nat
  mRxIndex : Nat
  cableNumber : Byte

namespace usbHostMidiTransport

/-- The constructor `usbHostMidiTransport(uint8_t cableNumber = 0)
{ this->cableNumber = cableNumber }` (the header leaves out the semicolon that
ends the assignment). It initialises no other member: `mem` is the content of
the object's storage before construction. -/
def ctor (mem : usbHostMidiTransport) (cableNumber : Byte) : usbHostMidiTransport :=
  { mem with cableNumber := cableNumber }

/-- The constructor called without an argument: `cableNumber` defaults to `0`. -/
def ctorDefault (mem : usbHostMidiTransport) : usbHostMidiTransport :=
  ctor mem 0

/-- Source: `void begin()`. -/
def begin (s : usbHostMidiTransport) : usbHostMidiTransport :=
  { s with mTxIndex := 0, mRxIndex := 0, mRxLength := 0 }

/-- Source: `bool beginTransmission(MidiType status)`; the `if (status < SystemExclusive)`
branch of the source is empty. -/
def beginTransmission (s : usbHostMidiTransport) (status : MidiType) :
    Bool × usbHostMidiTransport :=
  let s1 := { s with mTxStatus := status }
  let s2 := if status < SystemExclusive then s1 else s1
  (true, { s2 with mTxBuffer := Function.update s2.mTxBuffer 0 0, mTxIndex := 0 })

/-- Source: `void write(byte b)`. -/
def write (P : Platform) (s : usbHostMidiTransport) (b : Byte) : usbHostMidiTransport :=
  if h : s.mTxIndex < MIDI_MAX_SYSEX_SIZE then
    { s with mTxBuffer := Function.update s.mTxBuffer ⟨s.mTxIndex, h⟩ b,
             mTxIndex := P.inc s.mTxIndex }
  else s

/-- Source: `void endTransmission() { SendData(mTxBuffer, cableNumber) }` (the
header leaves out the semicolon that ends the call); the result of `SendData`
is discarded. -/
def endTransmission {δ : Type} (D : USBH_MIDI δ) (s : usbHostMidiTransport) (d : δ) :
    usbHostMidiTransport × δ :=
  (s, (D.SendData d s.mTxBuffer s.cableNumber).2)

/-- Source: `byte read()`: `mRxLength--; return mRxBuffer[mRxIndex++];`. The result is
`none` when `mRxIndex` is outside `mRxBuffer`. -/
def read (P : Platform) (s : usbHostMidiTransport) : Option (Byte × usbHostMidiTransport) :=
  let s1 := { s with mRxLength := P.dec s.mRxLength }
  if h : s1.mRxIndex < MIDI_MAX_SYSEX_SIZE then
    some (s1.mRxBuffer ⟨s1.mRxIndex, h⟩, { s1 with mRxIndex := P.inc s1.mRxIndex })
  else none

/-- Source: `unsigned available()`. -/
def available {δ : Type} (D : USBH_MIDI δ) (s : usbHostMidiTransport) (d : δ) :
    Nat × usbHostMidiTransport × δ :=
  if s.mRxLength ≠ 0 then
    (s.mRxLength, s, d)
  else
    let r := D.RecvRawData d s.mRxBuffer
    let s1 := { s with mRxBuffer := r.2.1, mRxLength := r.1.val }
    (s1.mRxLength, s1, r.2.2)

end usbHostMidiTransport

/-! ## Observing the calls into the driver -/

/-- A call that `usbHostMidiTransport` makes into its base class, with the
content of the array passed and the other arguments. -/
inductive DriverCall where
  | RecvRawData (outBuf : Buffer)
  | SendData (dataptr : Buffer) (nCable : Byte)

/-- The driver `D` with a log: every call is forwarded to `D` and appended to
the list of calls made so far. -/
def logDriver {δ : Type} (D : USBH_MIDI δ) : USBH_MIDI (δ × List DriverCall) where
  RecvRawData := fun d outBuf =>
    let r := D.RecvRawData d.1 outBuf
    (r.1, r.2.1, (r.2.2, d.2 ++ [DriverCall.RecvRawData outBuf]))
  SendData := fun d dataptr nCable =>
    let r := D.SendData d.1 dataptr nCable
    (r.1, (r.2, d.2 ++ [DriverCall.SendData dataptr nCable]))

/-- The array `buf` after `chunk` has been stored at its start; bytes of
`chunk` past the end of the array are not stored. -/
def writeChunk (buf : Buffer) (chunk : List Byte) : Buffer :=
  fun i => if h : i.val < chunk.length then chunk.get ⟨i.val, h⟩ else buf i

/-- Modelled from the spec: the body of `USBH_MIDI::RecvRawData` is not in
`usbh_midi.h`. The driver state is the list of chunks the device will still
deliver. `RecvRawData` takes the next chunk, writes it at the start of
`outBuf` and returns its length (as a `uint8_t`); with no chunk left it
writes nothing and returns 0. `SendData` returns 0 and changes nothing. -/
def chunkDriver : USBH_MIDI (List (List Byte)) where
  RecvRawData := fun d outBuf =>
    match d with
    | [] => (0, outBuf, [])
    | chunk :: rest => (⟨chunk.length % 256, Nat.mod_lt _ (by decide)⟩, writeChunk outBuf chunk, rest)
  SendData := fun d _ _ => (0, d)

/-! ## Sequences of calls on the transport -/

/-- A call of a public member function of `usbHostMidiTransport`. -/
inductive Op where
  | begin
  | beginTransmission (status : MidiType)
  | write (b : Byte)
  | endTransmission
  | read
  | available

/-- One call on the transport `st.1` with driver state `st.2`; `none` when a
`read` leaves `mRxBuffer`. -/
def step {δ : Type} (P : Platform) (D : USBH_MIDI δ) (op : Op) (st : usbHostMidiTransport × δ) :
    Option (usbHostMidiTransport × δ) :=
  match op with
  | Op.begin => some (st.1.begin, st.2)
  | Op.beginTransmission status => some ((st.1.beginTransmission status).2, st.2)
  | Op.write b => some (st.1.write P b, st.2)
  | Op.endTransmission => some (st.1.endTransmission D st.2)
  | Op.read => (st.1.read P).map (fun r => (r.2, st.2))
  | Op.available => some (st.1.available D st.2).2

/-- The calls `ops` one after the other. -/
def run {δ : Type} (P : Platform) (D : USBH_MIDI δ) :
    List Op → usbHostMidiTransport × δ → Option (usbHostMidiTransport × δ)
  | [], st => some st
  | op :: ops, st => (step P D op st).bind (run P D ops)

/-- The call `write(b)` for each `b` of `bs`, in order. -/
def writeAll (P : Platform) (s : usbHostMidiTransport) (bs : List Byte) : usbHostMidiTransport :=
  bs.foldl (usbHostMidiTransport.write P) s

/-- The results of `n` successive `read()` calls and the state after them. -/
def readN (P : Platform) : Nat → usbHostMidiTransport → Option (List Byte × usbHostMidiTransport)
  | 0, s => some ([], s)
  | n + 1, s =>
    match s.read P with
    | none => none
    | some (b, s1) => (readN P n s1).map (fun r => (b :: r.1, r.2))

/-- A consumer's loop, `n` rounds: call `available()` and, when it returns
non-zero, call `read()` once. The result is the list of bytes read and the
final state. -/
def consume {δ : Type} (P : Platform) (D : USBH_MIDI δ) :
    Nat → usbHostMidiTransport → δ → Option (List Byte × usbHostMidiTransport × δ)
  | 0, s, d => some ([], s, d)
  | n + 1, s, d =>
    let a := s.available D d
    if a.1 ≠ 0 then
      match a.2.1.read P with
      | none => none
      | some (b, s1) => (consume P D n s1 a.2.2).map (fun r => (b :: r.1, r.2))
    else consume P D n a.2.1 a.2.2

/-- An object whose storage is all zero. -/
def zeroMem : usbHostMidiTransport :=
  { mTxBuffer := fun _ => 0, mTxIndex := 0, mTxStatus := 0,
    mRxBuffer := fun _ => 0, mRxLength := 0, mRxIndex := 0, cableNumber := 0 }

/-! ## Arithmetic of `size_t` counters -/

theorem Platform.sizeMod_ge (P : Platform) : 65536 ≤ P.sizeMod := by
  unfold Platform.sizeMod
  calc 65536 = 2 ^ 16 := by norm_num
    _ ≤ 2 ^ P.sizeBits := Nat.pow_le_pow_right (by decide) P.sizeBits_ge

theorem Platform.inc_eq (P : Platform) (x : Nat) (h : x < 65535) : P.inc x = x + 1 := by
  unfold Platform.inc
  exact Nat.mod_eq_of_lt (by have := P.sizeMod_ge; omega)

theorem Platform.dec_eq (P : Platform) (x : Nat) (h0 : 0 < x) (h : x ≤ 65536) :
    P.dec x = x - 1 := by
  unfold Platform.dec
  have hm := P.sizeMod_ge
  have e : x + P.sizeMod - 1 = (x - 1) + P.sizeMod := by omega
  rw [e, Nat.add_mod_right]
  exact Nat.mod_eq_of_lt (by omega)

/-! ## The transmit side -/

namespace usbHostMidiTransport

theorem write_of_lt (P : Platform) (s : usbHostMidiTransport) (b : Byte)
    (h : s.mTxIndex < MIDI_MAX_SYSEX_SIZE) :
    s.write P b = { s with mTxBuffer := Function.update s.mTxBuffer ⟨s.mTxIndex, h⟩ b,
                           mTxIndex := s.mTxIndex + 1 } := by
  have h256 : MIDI_MAX_SYSEX_SIZE = 256 := rfl
  unfold write
  rw [dif_pos h, P.inc_eq _ (by omega)]

theorem write_of_not_lt (P : Platform) (s : usbHostMidiTransport) (b : Byte)
    (h : ¬ s.mTxIndex < MIDI_MAX_SYSEX_SIZE) : s.write P b = s := by
  unfold write
  rw [dif_neg h]

theorem beginTransmission_eq (s : usbHostMidiTransport) (status : MidiType) :
    s.beginTransmission status =
      (true, { s with mTxStatus := status, mTxBuffer := Function.update s.mTxBuffer 0 0,
                      mTxIndex := 0 }) := by
  unfold beginTransmission
  simp only [ite_self]

theorem read_eq_some (P : Platform) (s : usbHostMidiTransport)
    (r : Byte × usbHostMidiTransport) (h : s.read P = some r) :
    ∃ hi : s.mRxIndex < MIDI_MAX_SYSEX_SIZE,
      r = (s.mRxBuffer ⟨s.mRxIndex, hi⟩,
           { s with mRxLength := P.dec s.mRxLength, mRxIndex := P.inc s.mRxIndex }) := by
  unfold usbHostMidiTransport.read at h
  by_cases hi : s.mRxIndex < MIDI_MAX_SYSEX_SIZE
  · simp only [dif_pos hi] at h
    exact ⟨hi, (Option.some.inj h).symm⟩
  · simp only [dif_neg hi] at h
    exact absurd h (by simp)

theorem read_of_ge (P : Platform) (s : usbHostMidiTransport)
    (h : MIDI_MAX_SYSEX_SIZE ≤ s.mRxIndex) : s.read P = none := by
  unfold usbHostMidiTransport.read
  simp only [dif_neg (Nat.not_lt.mpr h)]

theorem read_of_lt (P : Platform) (s : usbHostMidiTransport)
    (hi : s.mRxIndex < MIDI_MAX_SYSEX_SIZE) (h0 : 0 < s.mRxLength) (hl : s.mRxLength ≤ 65536) :
    s.read P = some (s.mRxBuffer ⟨s.mRxIndex, hi⟩,
      { s with mRxLength := s.mRxLength - 1, mRxIndex := s.mRxIndex + 1 }) := by
  have h256 : MIDI_MAX_SYSEX_SIZE = 256 := rfl
  unfold usbHostMidiTransport.read
  simp only [dif_pos hi]
  rw [P.dec_eq _ h0 hl, P.inc_eq _ (by omega)]

end usbHostMidiTransport

open usbHostMidiTransport

/-- The effect of a run of `write` calls from a state whose `mTxIndex` is within
the array: the index advances to at most 256, the bytes that fit are stored
from the old index on, and every other element keeps its value. -/
theorem writeAll_spec (P : Platform) (bs : List Byte) :
    ∀ s : usbHostMidiTransport, s.mTxIndex ≤ MIDI_MAX_SYSEX_SIZE →
      (writeAll P s bs).mTxIndex = min (s.mTxIndex + bs.length) MIDI_MAX_SYSEX_SIZE ∧
      ∀ i : Fin MIDI_MAX_SYSEX_SIZE, (writeAll P s bs).mTxBuffer i =
        if s.mTxIndex ≤ i.val then (bs[i.val - s.mTxIndex]?).getD (s.mTxBuffer i)
        else s.mTxBuffer i := by
  induction bs with
  | nil =>
    intro s hs
    refine ⟨by simp [writeAll]; omega, fun i => ?_⟩
    simp [writeAll]
  | cons b bs ih =>
    intro s hs
    by_cases h : s.mTxIndex < MIDI_MAX_SYSEX_SIZE
    · have hw := write_of_lt P s b h
      have hstep : writeAll P s (b :: bs) = writeAll P (s.write P b) bs := rfl
      have hidx : (s.write P b).mTxIndex = s.mTxIndex + 1 := by rw [hw]
      have hbuf : (s.write P b).mTxBuffer = Function.update s.mTxBuffer ⟨s.mTxIndex, h⟩ b := by
        rw [hw]
      obtain ⟨ih1, ih2⟩ := ih (s.write P b) (by rw [hidx]; omega)
      rw [hstep]
      refine ⟨by rw [ih1, hidx]; simp only [List.length_cons]; omega, fun i => ?_⟩
      rw [ih2 i, hidx, hbuf]
      by_cases h1 : s.mTxIndex + 1 ≤ i.val
      · have h2 : s.mTxIndex ≤ i.val := by omega
        have h3 : i ≠ ⟨s.mTxIndex, h⟩ := by
          intro e
          rw [e] at h1
          simp at h1
        have h4 : i.val - s.mTxIndex = (i.val - (s.mTxIndex + 1)) + 1 := by omega
        rw [if_pos h1, if_pos h2, Function.update_noteq h3, h4, List.getElem?_cons_succ]
      · rw [if_neg h1]
        by_cases h2 : s.mTxIndex ≤ i.val
        · have h3 : i = ⟨s.mTxIndex, h⟩ := Fin.ext (by simp; omega)
          have h4 : i.val - s.mTxIndex = 0 := by omega
          rw [if_pos h2, h3, Function.update_same]
          simp
        · have h3 : i ≠ ⟨s.mTxIndex, h⟩ := by
            intro e
            rw [e] at h2
            simp at h2
          rw [if_neg h2, Function.update_noteq h3]
    · have hstep : writeAll P s (b :: bs) = writeAll P (s.write P b) bs := rfl
      rw [hstep, write_of_not_lt P s b h]
      obtain ⟨ih1, ih2⟩ := ih s hs
      have hk : s.mTxIndex = MIDI_MAX_SYSEX_SIZE := by omega
      refine ⟨by rw [ih1]; simp only [List.length_cons]; omega, fun i => ?_⟩
      rw [ih2 i]
      have h2 : ¬ s.mTxIndex ≤ i.val := by have := i.isLt; omega
      rw [if_neg h2, if_neg h2]

/-- An array whose elements agree with the list `bs` wherever `bs` has an
element starts with the bytes of `bs` that fit into it. -/
theorem ofFn_take_eq (f : Buffer) (bs : List Byte)
    (h : ∀ i : Fin MIDI_MAX_SYSEX_SIZE, i.val < bs.length → bs[i.val]? = some (f i)) :
    (List.ofFn f).take bs.length = bs.take MIDI_MAX_SYSEX_SIZE := by
  apply List.ext_getElem?
  intro n
  by_cases hn : n < bs.length
  · by_cases hm : n < MIDI_MAX_SYSEX_SIZE
    · rw [List.getElem?_take_of_lt hn, List.getElem?_take_of_lt hm, List.getElem?_ofFn,
        List.ofFnNthVal, dif_pos hm]
      exact (h ⟨n, hm⟩ hn).symm
    · have h1 : ((List.ofFn f).take bs.length).length ≤ n := by
        rw [List.length_take, List.length_ofFn]; omega
      have h2 : (bs.take MIDI_MAX_SYSEX_SIZE).length ≤ n := by
        rw [List.length_take]; omega
      rw [List.getElem?_eq_none h1, List.getElem?_eq_none h2]
  · have h1 : ((List.ofFn f).take bs.length).length ≤ n := by
      rw [List.length_take, List.length_ofFn]; omega
    have h2 : (bs.take MIDI_MAX_SYSEX_SIZE).length ≤ n := by
      rw [List.length_take]; omega
    rw [List.getElem?_eq_none h1, List.getElem?_eq_none h2]

/-- After `beginTransmission` and a run of `write` calls the transmit buffer
holds the bytes written, as far as they fit, and `mTxIndex` counts them. -/
theorem beginTransmission_writeAll (P : Platform) (s : usbHostMidiTransport) (status : MidiType)
    (bs : List Byte) :
    (writeAll P (s.beginTransmission status).2 bs).mTxIndex =
        min bs.length MIDI_MAX_SYSEX_SIZE ∧
      ∀ i : Fin MIDI_MAX_SYSEX_SIZE, i.val < bs.length →
        bs[i.val]? = some ((writeAll P (s.beginTransmission status).2 bs).mTxBuffer i) := by
  have h0 : (s.beginTransmission status).2.mTxIndex = 0 := by
    simp [beginTransmission]
  obtain ⟨h1, h2⟩ := writeAll_spec P bs (s.beginTransmission status).2 (by rw [h0]; omega)
  refine ⟨by rw [h1, h0]; simp, fun i hi => ?_⟩
  rw [h2 i, h0, if_pos (Nat.zero_le _), Nat.sub_zero, List.getElem?_eq_getElem hi]
  simp

/-! ## Claims about the transmit side -/

/-- C2: for every prior state `s`, every `status` and every byte list `bs` of
length at most `MIDI_MAX_SYSEX_SIZE`, `beginTransmission(status)` returns true
and, followed by `write(b)` for each `b` of `bs` in order, leaves
`mTxIndex = bs.length` and `mTxBuffer[i] = bs[i]` for every `i < bs.length`
(the first `bs.length` elements of the buffer are `bs`); with no `write` at
all the result has `mTxIndex = 0` and `mTxBuffer[0] = 0`. -/
theorem beginTransmission_write_accumulates (P : Platform) (s : usbHostMidiTransport)
    (status : MidiType) (bs : List Byte) (hn : bs.length ≤ MIDI_MAX_SYSEX_SIZE) :
    (s.beginTransmission status).1 = true ∧
    (writeAll P (s.beginTransmission status).2 bs).mTxIndex = bs.length ∧
    (∀ (i : Fin MIDI_MAX_SYSEX_SIZE) (h : i.val < bs.length),
      (writeAll P (s.beginTransmission status).2 bs).mTxBuffer i = bs.get ⟨i.val, h⟩) ∧
    (List.ofFn (writeAll P (s.beginTransmission status).2 bs).mTxBuffer).take bs.length = bs ∧
    (writeAll P (s.beginTransmission status).2 []).mTxIndex = 0 ∧
    (writeAll P (s.beginTransmission status).2 []).mTxBuffer 0 = 0 := by
  obtain ⟨h1, h2⟩ := beginTransmission_writeAll P s status bs
  refine ⟨rfl, by rw [h1]; omega, fun i h => ?_, ?_, ?_, ?_⟩
  · have := h2 i h
    rw [List.getElem?_eq_getElem h] at this
    exact (Option.some.inj this).symm
  · rw [ofFn_take_eq _ bs h2]
    exact List.take_of_length_le hn
  · simp [writeAll, beginTransmission]
  · simp [writeAll, beginTransmission]

/-- C2 at a concrete input: a note-on message of three bytes written into an
object whose transmit buffer was full. -/
theorem beginTransmission_write_accumulates_witness :
    ([0x90, 60, 100] : List Byte).length ≤ MIDI_MAX_SYSEX_SIZE ∧
    (writeAll avr ({ zeroMem with mTxIndex := 256 }.beginTransmission 0x90).2
        [0x90, 60, 100]).mTxIndex = 3 :=
  ⟨by decide,
   (beginTransmission_write_accumulates avr { zeroMem with mTxIndex := 256 } 0x90
      [0x90, 60, 100] (by decide)).2.1⟩

/-- C4: in every state with `mTxIndex = MIDI_MAX_SYSEX_SIZE` a `write(b)`
leaves the whole state unchanged; and for every byte list `bs` longer than
`MIDI_MAX_SYSEX_SIZE`, `beginTransmission` followed by `write(b)` for each `b`
of `bs` leaves `mTxIndex = 256` and the buffer equal to the first 256 bytes
of `bs`. -/
theorem write_drops_excess (P : Platform) (s : usbHostMidiTransport) (b : Byte)
    (hfull : s.mTxIndex = MIDI_MAX_SYSEX_SIZE)
    (s0 : usbHostMidiTransport) (status : MidiType) (bs : List Byte)
    (hlong : MIDI_MAX_SYSEX_SIZE < bs.length) :
    s.write P b = s ∧
    (writeAll P (s0.beginTransmission status).2 bs).mTxIndex = MIDI_MAX_SYSEX_SIZE ∧
    List.ofFn (writeAll P (s0.beginTransmission status).2 bs).mTxBuffer =
      bs.take MIDI_MAX_SYSEX_SIZE := by
  obtain ⟨h1, h2⟩ := beginTransmission_writeAll P s0 status bs
  refine ⟨write_of_not_lt P s b (by omega), by rw [h1]; omega, ?_⟩
  rw [← ofFn_take_eq _ bs h2]
  exact (List.take_of_length_le (by rw [List.length_ofFn]; omega)).symm

/-- C4 at a concrete input: a full buffer, and a message of 257 bytes. -/
theorem write_drops_excess_witness :
    ({ zeroMem with mTxIndex := 256 } : usbHostMidiTransport).mTxIndex = MIDI_MAX_SYSEX_SIZE ∧
    MIDI_MAX_SYSEX_SIZE < (List.replicate 257 (7 : Byte)).length ∧
    ({ zeroMem with mTxIndex := 256 } : usbHostMidiTransport).write arm32 9 =
      { zeroMem with mTxIndex := 256 } ∧
    (writeAll arm32 (zeroMem.beginTransmission 0xF0).2 (List.replicate 257 7)).mTxIndex = 256 :=
  ⟨rfl, by rw [List.length_replicate]; decide,
   (write_drops_excess arm32 { zeroMem with mTxIndex := 256 } 9 rfl zeroMem 0xF0
      (List.replicate 257 7) (by rw [List.length_replicate]; decide)).1,
   (write_drops_excess arm32 { zeroMem with mTxIndex := 256 } 9 rfl zeroMem 0xF0
      (List.replicate 257 7) (by rw [List.length_replicate]; decide)).2.1⟩

/-! ## Members that no call changes -/

/-- No member function assigns `cableNumber`. -/
theorem step_cableNumber {δ : Type} (P : Platform) (D : USBH_MIDI δ) (op : Op)
    (st st1 : usbHostMidiTransport × δ) (h : step P D op st = some st1) :
    st1.1.cableNumber = st.1.cableNumber := by
  cases op with
  | begin => simp only [step, Option.some.injEq] at h; rw [← h]; rfl
  | beginTransmission status =>
    simp only [step, Option.some.injEq] at h
    rw [← h, beginTransmission_eq]
  | write b =>
    simp only [step, Option.some.injEq] at h
    rw [← h]
    show (st.1.write P b).cableNumber = _
    unfold write
    split <;> rfl
  | endTransmission => simp only [step, Option.some.injEq] at h; rw [← h]; rfl
  | read =>
    simp only [step, Option.map_eq_some'] at h
    obtain ⟨r, hr, e⟩ := h
    obtain ⟨_, hr1⟩ := read_eq_some P st.1 r hr
    rw [← e, hr1]
  | available =>
    simp only [step, Option.some.injEq] at h
    rw [← h]
    show (st.1.available D st.2).2.1.cableNumber = _
    unfold available
    split <;> rfl

theorem run_cableNumber {δ : Type} (P : Platform) (D : USBH_MIDI δ) (ops : List Op) :
    ∀ st st1 : usbHostMidiTransport × δ, run P D ops st = some st1 →
      st1.1.cableNumber = st.1.cableNumber := by
  induction ops with
  | nil =>
    intro st st1 h
    simp only [run, Option.some.injEq] at h
    rw [h]
  | cons op ops ih =>
    intro st st1 h
    simp only [run, Option.bind_eq_some] at h
    obtain ⟨st2, h1, h2⟩ := h
    rw [ih st2 st1 h2, step_cableNumber P D op st st2 h1]

/-- A call either keeps `mTxIndex` or leaves it at most `MIDI_MAX_SYSEX_SIZE`. -/
theorem step_mTxIndex {δ : Type} (P : Platform) (D : USBH_MIDI δ) (op : Op)
    (st st1 : usbHostMidiTransport × δ) (hinv : st.1.mTxIndex ≤ MIDI_MAX_SYSEX_SIZE)
    (h : step P D op st = some st1) : st1.1.mTxIndex ≤ MIDI_MAX_SYSEX_SIZE := by
  cases op with
  | begin => simp only [step, Option.some.injEq] at h; rw [← h]; exact Nat.zero_le _
  | beginTransmission status =>
    simp only [step, Option.some.injEq] at h
    rw [← h, beginTransmission_eq]
    exact Nat.zero_le _
  | write b =>
    simp only [step, Option.some.injEq] at h
    rw [← h]
    show (st.1.write P b).mTxIndex ≤ _
    by_cases hlt : st.1.mTxIndex < MIDI_MAX_SYSEX_SIZE
    · rw [write_of_lt P _ b hlt]
      exact hlt
    · rw [write_of_not_lt P _ b hlt]
      exact hinv
  | endTransmission => simp only [step, Option.some.injEq] at h; rw [← h]; exact hinv
  | read =>
    simp only [step, Option.map_eq_some'] at h
    obtain ⟨r, hr, e⟩ := h
    obtain ⟨_, hr1⟩ := read_eq_some P st.1 r hr
    rw [← e, hr1]
    exact hinv
  | available =>
    simp only [step, Option.some.injEq] at h
    rw [← h]
    show (st.1.available D st.2).2.1.mTxIndex ≤ _
    unfold available
    split <;> exact hinv

theorem run_mTxIndex {δ : Type} (P : Platform) (D : USBH_MIDI δ) (ops : List Op) :
    ∀ st st1 : usbHostMidiTransport × δ, st.1.mTxIndex ≤ MIDI_MAX_SYSEX_SIZE →
      run P D ops st = some st1 → st1.1.mTxIndex ≤ MIDI_MAX_SYSEX_SIZE := by
  induction ops with
  | nil =>
    intro st st1 hinv h
    simp only [run, Option.some.injEq] at h
    rw [← h]
    exact hinv
  | cons op ops ih =>
    intro st st1 hinv h
    simp only [run, Option.bind_eq_some] at h
    obtain ⟨st2, h1, h2⟩ := h
    exact ih st2 st1 (step_mTxIndex P D op st st2 hinv h1) h2

/-! ## Claims about the calls into the driver -/

/-- C3: in every state `endTransmission()` makes exactly one call into the
driver, `SendData` with the current `mTxBuffer` as data and the member
`cableNumber` as `nCable`, and leaves every member of the transport unchanged.
In an object built by the constructor with cable number `cable` and then used
through any sequence `ops` of calls, that `nCable` is `cable`; the constructor
without argument is the constructor with cable number 0. -/
theorem endTransmission_sends_once {δ : Type} (P : Platform) (D : USBH_MIDI δ)
    (mem : usbHostMidiTransport) (cable : Byte) (ops : List Op) (d0 : δ)
    (log0 : List DriverCall) (st : usbHostMidiTransport × δ × List DriverCall)
    (hrun : run P (logDriver D) ops (ctor mem cable, (d0, log0)) = some st) :
    (∀ (s : usbHostMidiTransport) (d : δ) (log : List DriverCall),
      s.endTransmission (logDriver D) (d, log) =
        (s, ((D.SendData d s.mTxBuffer s.cableNumber).2,
             log ++ [DriverCall.SendData s.mTxBuffer s.cableNumber]))) ∧
    st.1.cableNumber = cable ∧
    st.1.endTransmission (logDriver D) st.2 =
      (st.1, ((D.SendData st.2.1 st.1.mTxBuffer cable).2,
              st.2.2 ++ [DriverCall.SendData st.1.mTxBuffer cable])) ∧
    ctorDefault mem = ctor mem 0 := by
  have hc : st.1.cableNumber = cable := run_cableNumber P (logDriver D) ops _ st hrun
  refine ⟨fun s d log => rfl, hc, ?_, rfl⟩
  rw [← hc]
  rfl

/-- C3 at a concrete input: an object built with cable number 3 sends a
note-on message. -/
theorem endTransmission_sends_once_witness :
    run avr (logDriver chunkDriver)
        [Op.begin, Op.beginTransmission 0x90, Op.write 0x90, Op.write 60, Op.write 100]
        (ctor zeroMem 3, ([], [])) =
      some ((((zeroMem.ctor 3).begin.beginTransmission 0x90).2.write avr 0x90).write avr 60
              |>.write avr 100, ([], [])) ∧
    ((((zeroMem.ctor 3).begin.beginTransmission 0x90).2.write avr 0x90).write avr 60
        |>.write avr 100).cableNumber = 3 :=
  ⟨rfl,
   (endTransmission_sends_once avr chunkDriver zeroMem 3
      [Op.begin, Op.beginTransmission 0x90, Op.write 0x90, Op.write 60, Op.write 100]
      [] [] _ rfl).2.1⟩

/-- C5: in every state with `mRxLength != 0`, `available()` returns `mRxLength`,
makes no call into the driver and leaves the state unchanged, so that a
second call returns the same value; in every state with `mRxLength = 0` it
makes exactly one call into the driver, `RecvRawData` on `mRxBuffer`, stores
the returned count in `mRxLength` and returns that count. -/
theorem available_polls_when_empty {δ : Type} (D : USBH_MIDI δ) (s : usbHostMidiTransport)
    (d : δ) (log : List DriverCall) :
    (s.mRxLength ≠ 0 →
      s.available (logDriver D) (d, log) = (s.mRxLength, s, (d, log)) ∧
      ((s.available (logDriver D) (d, log)).2.1.available (logDriver D)
          (s.available (logDriver D) (d, log)).2.2).1 =
        (s.available (logDriver D) (d, log)).1) ∧
    (s.mRxLength = 0 →
      s.available (logDriver D) (d, log) =
        ((D.RecvRawData d s.mRxBuffer).1.val,
         { s with mRxBuffer := (D.RecvRawData d s.mRxBuffer).2.1,
                  mRxLength := (D.RecvRawData d s.mRxBuffer).1.val },
         ((D.RecvRawData d s.mRxBuffer).2.2, log ++ [DriverCall.RecvRawData s.mRxBuffer]))) := by
  constructor
  · intro h
    have e : s.available (logDriver D) (d, log) = (s.mRxLength, s, (d, log)) := by
      unfold available
      rw [if_pos h]
    rw [e]
    exact ⟨rfl, by rw [e]⟩
  · intro h
    unfold available
    rw [if_neg (by rw [h]; simp)]
    rfl

/-- C5 at concrete inputs: one byte buffered, and nothing buffered with a chunk
of two bytes waiting in the device. -/
theorem available_polls_when_empty_witness :
    ({ zeroMem with mRxLength := 1 } : usbHostMidiTransport).available (logDriver chunkDriver)
        ([[5, 6]], []) = (1, { zeroMem with mRxLength := 1 }, ([[5, 6]], [])) ∧
    (zeroMem.available (logDriver chunkDriver) ([[5, 6]], [])).1 = 2 :=
  ⟨((available_polls_when_empty chunkDriver { zeroMem with mRxLength := 1 } [[5, 6]] []).1
      (by decide)).1,
   congrArg Prod.fst ((available_polls_when_empty chunkDriver zeroMem [[5, 6]] []).2 rfl)⟩

/-- C7: for all arguments and every driver state, `RcvData(bytes_rcvd, dataptr)`
has the result and the effect of `RecvData(bytes_rcvd, dataptr)`, and
`RcvData(outBuf)` has the result and the effect of `RecvData(outBuf, false)`. -/
theorem RcvData_eq_RecvData {δ μ : Type} (R : RecvDataFns δ μ) (d : δ) (bytes_rcvd : Nat)
    (dataptr outBuf : μ) :
    R.RcvData2 d bytes_rcvd dataptr = R.RecvData2 d bytes_rcvd dataptr ∧
    R.RcvData d outBuf = R.RecvData d outBuf false :=
  ⟨rfl, rfl⟩

/-- C9: `mTxIndex <= MIDI_MAX_SYSEX_SIZE` holds after `begin()`, every call of a
member function that starts in a state where it holds ends in one, hence it
holds after every sequence of calls that follows `begin()`; and a `write(b)`
either changes nothing or stores `b` at `mTxBuffer[mTxIndex]` with
`mTxIndex < MIDI_MAX_SYSEX_SIZE`. -/
theorem mTxIndex_le_max {δ : Type} (P : Platform) (D : USBH_MIDI δ) (op : Op)
    (st st1 : usbHostMidiTransport × δ) (hinv : st.1.mTxIndex ≤ MIDI_MAX_SYSEX_SIZE)
    (hstep : step P D op st = some st1) :
    st1.1.mTxIndex ≤ MIDI_MAX_SYSEX_SIZE ∧
    (∀ s : usbHostMidiTransport, s.begin.mTxIndex ≤ MIDI_MAX_SYSEX_SIZE) ∧
    (∀ (ops : List Op) (s : usbHostMidiTransport) (d : δ) (st2 : usbHostMidiTransport × δ),
      run P D ops (s.begin, d) = some st2 → st2.1.mTxIndex ≤ MIDI_MAX_SYSEX_SIZE) ∧
    (∀ (s : usbHostMidiTransport) (b : Byte),
      s.write P b = s ∨
      ∃ h : s.mTxIndex < MIDI_MAX_SYSEX_SIZE,
        (s.write P b).mTxBuffer = Function.update s.mTxBuffer ⟨s.mTxIndex, h⟩ b) := by
  refine ⟨step_mTxIndex P D op st st1 hinv hstep, fun s => Nat.zero_le _,
    fun ops s d st2 h => run_mTxIndex P D ops (s.begin, d) st2 (Nat.zero_le _) h, fun s b => ?_⟩
  by_cases h : s.mTxIndex < MIDI_MAX_SYSEX_SIZE
  · exact Or.inr ⟨h, by rw [write_of_lt P s b h]⟩
  · exact Or.inl (write_of_not_lt P s b h)

/-- C9 at a concrete input: the write that fills the last element. -/
theorem mTxIndex_le_max_witness :
    ({ zeroMem with mTxIndex := 255 } : usbHostMidiTransport).mTxIndex ≤ MIDI_MAX_SYSEX_SIZE ∧
    step avr chunkDriver (Op.write 7) ({ zeroMem with mTxIndex := 255 }, []) =
      some (({ zeroMem with mTxIndex := 255 } : usbHostMidiTransport).write avr 7, []) ∧
    (({ zeroMem with mTxIndex := 255 } : usbHostMidiTransport).write avr 7).mTxIndex
      ≤ MIDI_MAX_SYSEX_SIZE :=
  ⟨by decide, rfl,
   (mTxIndex_le_max avr chunkDriver (Op.write 7) ({ zeroMem with mTxIndex := 255 }, []) _
      (by decide) rfl).1⟩

/-! ## The receive side -/

/-- A run of `read` calls that stays inside the array and inside the buffered
length returns the elements from `mRxIndex` on, in order. -/
theorem readN_spec (P : Platform) (ck : List Byte) :
    ∀ s : usbHostMidiTransport, s.mRxIndex + ck.length ≤ MIDI_MAX_SYSEX_SIZE →
      ck.length ≤ s.mRxLength → s.mRxLength ≤ 65536 →
      (∀ i : Fin MIDI_MAX_SYSEX_SIZE, s.mRxIndex ≤ i.val → i.val < s.mRxIndex + ck.length →
        ck[i.val - s.mRxIndex]? = some (s.mRxBuffer i)) →
      readN P ck.length s =
        some (ck, { s with mRxLength := s.mRxLength - ck.length,
                           mRxIndex := s.mRxIndex + ck.length }) := by
  induction ck with
  | nil =>
    intro s _ _ _ _
    rfl
  | cons b ck ih =>
    intro s hidx hlen hmax hbuf
    simp only [List.length_cons] at hidx hlen
    have hi : s.mRxIndex < MIDI_MAX_SYSEX_SIZE := by omega
    have hb : s.mRxBuffer ⟨s.mRxIndex, hi⟩ = b := by
      have := hbuf ⟨s.mRxIndex, hi⟩ (Nat.le_refl _) (by simp)
      simp only [Nat.sub_self, List.getElem?_cons_zero] at this
      exact (Option.some.inj this).symm
    have hrec := ih { s with mRxLength := s.mRxLength - 1, mRxIndex := s.mRxIndex + 1 }
      (by simp only; omega) (by simp only; omega) (by simp only; omega)
      (by
        intro i h1 h2
        simp only at h1 h2 ⊢
        have := hbuf i (by omega) (by simp only [List.length_cons]; omega)
        have e : i.val - s.mRxIndex = (i.val - (s.mRxIndex + 1)) + 1 := by omega
        rw [e, List.getElem?_cons_succ] at this
        exact this)
    simp only [List.length_cons, readN, read_of_lt P s hi (by omega) hmax, hrec, hb, Option.map_some']
    congr 3
    · omega
    · omega

/-- C6: after `begin()`, if the `RecvRawData` call of the first `available()`
returns the count `n = ck.length` and leaves the bytes `ck` at the start of
`mRxBuffer`, then `available()` returns `n` and the next `n` calls of `read()`
return the bytes of `ck` in order, after which `mRxLength = 0` and
`mRxIndex = n`. The count is a `uint8_t`, hence `n <= 255`; the statement
holds for every such `n`, in particular for `1 <= n <= 255`. -/
theorem first_chunk_read_back {δ : Type} (P : Platform) (D : USBH_MIDI δ)
    (s : usbHostMidiTransport) (d : δ) (ck : List Byte)
    (hcount : (D.RecvRawData d s.begin.mRxBuffer).1.val = ck.length)
    (hdata : ∀ (i : Fin MIDI_MAX_SYSEX_SIZE) (h : i.val < ck.length),
      (D.RecvRawData d s.begin.mRxBuffer).2.1 i = ck.get ⟨i.val, h⟩) :
    (s.begin.available D d).1 = ck.length ∧
    ck.length ≤ 255 ∧
    ∃ s1 : usbHostMidiTransport,
      readN P ck.length (s.begin.available D d).2.1 = some (ck, s1) ∧
      s1.mRxLength = 0 ∧ s1.mRxIndex = ck.length := by
  have h255 : ck.length ≤ 255 := by
    have := (D.RecvRawData d s.begin.mRxBuffer).1.isLt
    omega
  have ha : s.begin.available D d =
      (ck.length, { s.begin with mRxBuffer := (D.RecvRawData d s.begin.mRxBuffer).2.1,
                                 mRxLength := ck.length },
       (D.RecvRawData d s.begin.mRxBuffer).2.2) := by
    unfold available
    rw [if_neg (by simp [begin])]
    simp only [hcount]
  rw [ha]
  have h256 : MIDI_MAX_SYSEX_SIZE = 256 := rfl
  refine ⟨rfl, h255, _, readN_spec P ck _ ?_ ?_ ?_ ?_, ?_, ?_⟩
  · simp only [begin]; omega
  · exact Nat.le_refl _
  · simp only; omega
  · intro i _ h2
    have hi : i.val < ck.length := by simpa [begin] using h2
    simp only [begin, Nat.sub_zero]
    rw [List.getElem?_eq_getElem hi]
    exact congrArg some (hdata i hi).symm
  · simp
  · simp [begin]

/-- C6 at a concrete input: the device delivers the three bytes of a note-on
message. -/
theorem first_chunk_read_back_witness :
    (chunkDriver.RecvRawData [[0x90, 60, 100]] zeroMem.begin.mRxBuffer).1.val = 3 ∧
    (zeroMem.begin.available chunkDriver [[0x90, 60, 100]]).1 = 3 ∧
    (readN avr 3 (zeroMem.begin.available chunkDriver [[0x90, 60, 100]]).2.1).map
      (fun r => (r.1, r.2.mRxLength, r.2.mRxIndex)) = some ([0x90, 60, 100], 0, 3) :=
  ⟨rfl,
   (first_chunk_read_back avr chunkDriver zeroMem [[0x90, 60, 100]] [0x90, 60, 100]
      rfl (fun _ h => dif_pos h)).1,
   by decide⟩

/-! ## Where the receive side leaves the first chunk -/

/-- With no chunk left in the device and nothing buffered, the consumer's loop
reads nothing. -/
theorem consume_idle (P : Platform) (n : Nat) :
    ∀ s : usbHostMidiTransport, s.mRxLength = 0 →
      consume P chunkDriver n s [] = some ([], s, []) := by
  induction n with
  | zero => intro s _; rfl
  | succ n ih =>
    intro s h
    have e : s.available chunkDriver [] = (0, s, []) := by
      cases s with
      | mk txb txi txs rxb rxl rxi cn =>
        simp only at h
        subst h
        rfl
    simp only [consume, e]
    exact ih s h

/-- One round of the consumer's loop that polls a one-byte chunk: the byte
obtained is the element of the refilled array at the old `mRxIndex`. -/
theorem consume_poll_one (P : Platform) (n : Nat) (s : usbHostMidiTransport) (b : Byte)
    (rest : List (List Byte)) (h0 : s.mRxLength = 0) (hi : s.mRxIndex < MIDI_MAX_SYSEX_SIZE) :
    consume P chunkDriver (n + 1) s ([b] :: rest) =
      (consume P chunkDriver n
          { s with mRxBuffer := writeChunk s.mRxBuffer [b], mRxLength := 0,
                   mRxIndex := s.mRxIndex + 1 } rest).map
        (fun r => (writeChunk s.mRxBuffer [b] ⟨s.mRxIndex, hi⟩ :: r.1, r.2)) := by
  have e : s.available chunkDriver ([b] :: rest) =
      (1, { s with mRxBuffer := writeChunk s.mRxBuffer [b], mRxLength := 1 }, rest) := by
    unfold available
    rw [if_neg (by rw [h0]; simp)]
    rfl
  have hr := read_of_lt P { s with mRxBuffer := writeChunk s.mRxBuffer [b], mRxLength := 1 }
    hi (by simp only; omega) (by simp only; omega)
  simp only [consume, e, hr]
  rfl

/-- C1, the code at failing inputs. After `begin()` in any state `s`, on any
platform, the device delivers the chunk `[a]` and then the chunk `[b]`. The
consumer's loop, run for any number of rounds from two on, obtains `a` and
then the element `mRxBuffer[1]` of the state before `begin()`, whatever `b`
is: the second chunk is stored at `mRxBuffer[0]` while `read()` returns
`mRxBuffer[1]`, since `mRxIndex` is only reset by `begin()`. On a zeroed
object the chunks `[1]`, `[2]` are read as `[1, 0]`, not `[1] ++ [2]`, and
the chunks `[1, 2, 3]`, `[4, 5]` as `[1, 2, 3, 0, 0]`. -/
theorem consume_second_chunk_misread (P : Platform) (n : Nat) (s : usbHostMidiTransport)
    (a b : Byte) :
    (consume P chunkDriver (n + 2) s.begin [[a], [b]]).map (fun r => r.1)
      = some [a, s.mRxBuffer 1] ∧
    (consume avr chunkDriver (n + 2) zeroMem.begin [[1], [2]]).map (fun r => r.1)
      = some [1, 0] ∧
    ([1, 0] : List Byte) ≠ [1] ++ [2] ∧
    (consume avr chunkDriver 5 zeroMem.begin [[1, 2, 3], [4, 5]]).map (fun r => r.1)
      = some [1, 2, 3, 0, 0] := by
  have h : ∀ (Q : Platform) (t : usbHostMidiTransport) (x y : Byte),
      (consume Q chunkDriver (n + 2) t.begin [[x], [y]]).map (fun r => r.1)
        = some [x, t.mRxBuffer 1] := by
    intro Q t x y
    rw [consume_poll_one Q (n + 1) t.begin x [[y]] rfl (by simp [begin]),
      consume_poll_one Q n _ y [] rfl (by simp [begin]), consume_idle Q n _ rfl]
    rfl
  exact ⟨h P s a b, h avr zeroMem 1 2, by decide, by decide⟩

set_option maxRecDepth 100000 in
/-- C8, the code at failing inputs. After `begin()` on a zeroed object and one
round of the consumer's loop on the chunks `[7]` and `[9]`, the next
`available()` returns 1, the count `RecvRawData` has just delivered, and the
`read()` that follows uses `mRxIndex = 1`, which is not less than that count;
it returns the stale `mRxBuffer[1] = 0`. After 256 rounds on five packets of
`MIDI_EVENT_PACKET_SIZE` bytes, `available()` returns 64 and the `read()`
that follows uses `mRxIndex = 256 = MIDI_MAX_SYSEX_SIZE`, outside
`mRxBuffer`. -/
theorem read_index_leaves_chunk_and_buffer :
    (consume avr chunkDriver 1 zeroMem.begin [[7], [9]]).map
        (fun r => (r.1, (r.2.1.available chunkDriver r.2.2).1,
          (r.2.1.available chunkDriver r.2.2).2.1.mRxIndex,
          ((r.2.1.available chunkDriver r.2.2).2.1.read avr).map (fun x => x.1)))
      = some ([7], 1, 1, some 0) ∧
    (consume avr chunkDriver 256 zeroMem.begin
          (List.replicate 5 (List.replicate MIDI_EVENT_PACKET_SIZE 7))).map
        (fun r => (r.1.length, (r.2.1.available chunkDriver r.2.2).1,
          (r.2.1.available chunkDriver r.2.2).2.1.mRxIndex,
          ((r.2.1.available chunkDriver r.2.2).2.1.read avr).map (fun x => x.1)))
      = some (256, 64, 256, none) := by
  decide

end USBHMIDI
